import Mathlib

/-!
Verification of the frame-loop synchronization and GPU resource lifecycle
subsystem of a Vulkan renderer (`src/main.rs`, `src/shared_memory.rs`,
`src/objects/{mesh,vertex,texture}.rs`), as a shallow embedding in Lean.

Machine integers are modeled as `Nat`; bitmask operations (`&`, `1 << i`,
`MemoryPropertyFlags::contains`) are modeled with `Nat.land` and powers of two.
Vulkan handles are opaque tokens modeled as `Nat` where their identity matters.
-/

set_option maxRecDepth 4000

-- ================================================================================================
-- Memory-type selection (`get_memory_type_index`, src/shared_memory.rs:276-290
-- and the identical copy in src/main.rs:1057-1071)
-- ================================================================================================

/-- One entry of `vk::PhysicalDeviceMemoryProperties::memory_types`, reduced to
the only field the selection reads: its `property_flags` bitmask. -/
structure MemoryType where
  propertyFlags : Nat

/-- `vk::MemoryPropertyFlags::contains`: every bit set in `required` is also set
in `flags`. -/
def flagsContains (flags required : Nat) : Bool :=
  Nat.land flags required == required

/-- The per-index predicate of the `find` closure in `get_memory_type_index`:
`(requirements.memory_type_bits & (1 << i)) != 0 && memory_types[i].property_flags.contains(properties)`.
Indices past the end of `types` read a zero-flags entry; the scan below never
reaches them. -/
def suitableMemoryType (memoryTypeBits properties : Nat) (types : List MemoryType) (i : Nat) : Bool :=
  (Nat.land memoryTypeBits (2 ^ i) != 0) && flagsContains ((types.getD i ⟨0⟩).propertyFlags) properties

/-- The ascending scan of `(0..memory.memory_type_count).find(...)`: try index
`i`, then `i+1`, ..., for `n` candidates in total. -/
def findSuitableFrom (memoryTypeBits properties : Nat) (types : List MemoryType) : Nat → Nat → Option Nat
  | _, 0 => none
  | i, n + 1 =>
    if suitableMemoryType memoryTypeBits properties types i then some i
    else findSuitableFrom memoryTypeBits properties types (i + 1) n

/-- `get_memory_type_index` (src/shared_memory.rs:276-290): scan memory types in
ascending index order and return the first index whose bit is set in the
requirement bitmask and whose property flags contain the requested flags.
`none` models the `Failed to find suitable memory type.` error
(`NoSuitableMemoryType`). -/
def get_memory_type_index (types : List MemoryType) (properties memoryTypeBits : Nat) : Option Nat :=
  findSuitableFrom memoryTypeBits properties types 0 types.length

-- ================================================================================================
-- Texture mip level count (`Texture2D::load_from_file`, src/objects/texture.rs:70)
-- ================================================================================================

/-- Fuel-bounded floor binary logarithm by repeated halving. Structural
recursion, so that concrete values reduce inside the kernel; 64 halvings cover
every `u32` (indeed every `u64`). -/
def log2Fuel : Nat → Nat → Nat
  | 0, _ => 0
  | fuel + 1, n => if 2 ≤ n then log2Fuel fuel (n / 2) + 1 else 0

/-- Floor binary logarithm of a `u32`-ranged value. -/
def ulog2 (n : Nat) : Nat := log2Fuel 64 n

/-- The exact integer value of `n as f32` for a `u32` `n`: IEEE-754
round-to-nearest, ties to even, to a 24-bit significand. The conversion is
exact up to `2 ^ 24`; above, `n` is rounded at the granularity `2 ^ e` of its
binade. Every `u32` converts to an integral `f32` value. -/
def roundF32U32 (n : Nat) : Nat :=
  if n ≤ 2 ^ 24 then n
  else
    let e := ulog2 n - 23
    let q := n / 2 ^ e
    let r := n % 2 ^ e
    if 2 ^ e < 2 * r ∨ (2 * r = 2 ^ e ∧ q % 2 = 1) then (q + 1) * 2 ^ e else q * 2 ^ e

/-- Mip level count of `Texture2D::load_from_file`
(src/objects/texture.rs:70):
`(width.max(height) as f32).log2().floor() as u32 + 1`.
The `u32 → f32` conversion is modeled exactly by `roundF32U32`. Rust specifies
no precision for `f32::log2` (it is the platform `log2f`), so the floor of
`log2f` on the — always integral — converted value is kept as a parameter
`floorLog2F`; the only property the theorems below assume of it is
`floorLog2F (2 ^ k) = k`, which holds for every faithfully rounded `log2f`
because `log2 (2 ^ k) = k` is exactly representable. -/
def texture_mip_levels (floorLog2F : Nat → Nat) (width height : Nat) : Nat :=
  floorLog2F (roundF32U32 (max width height)) + 1

-- ================================================================================================
-- Mip-chain blit extents (`generate_mipmaps`, src/shared_memory.rs:173-253)
-- ================================================================================================

/-- One destination dimension of the blit for mip level `i` in
`generate_mipmaps`: `if mip_width > 1 { mip_width / 2 } else { 1 }`
(src/shared_memory.rs:214-215), applied to the source level's dimension. -/
def blit_dst_dim (n : Nat) : Nat :=
  if 1 < n then n / 2 else 1

/-- The loop-variable update at the end of each `generate_mipmaps` iteration:
`if mip_width > 1 { mip_width /= 2 }` (src/shared_memory.rs:246-252). -/
def next_mip_dim (n : Nat) : Nat :=
  if 1 < n then n / 2 else n

/-- The value of the `mip_width` (resp. `mip_height`) loop variable when the
`generate_mipmaps` loop reaches level `i + 1`, starting from the full dimension
`w` at level `0`; equivalently, the dimension of mip level `i`. -/
def mip_dim (w : Nat) : Nat → Nat
  | 0 => w
  | i + 1 => next_mip_dim (mip_dim w i)

/-- The per-level dimensions of a `mipLevels`-level chain starting from `w`. -/
def mip_dims (w mipLevels : Nat) : List Nat :=
  (List.range mipLevels).map (mip_dim w)

/-- The destination extent of the `cmd_blit_image` call for level `i ≥ 1`
(`dst_offsets[1]`, src/shared_memory.rs:211-218), computed from the level
`i - 1` dimensions held in `mip_width` / `mip_height` at that iteration. -/
def blit_dst_extent (w h i : Nat) : Nat × Nat :=
  (blit_dst_dim (mip_dim w (i - 1)), blit_dst_dim (mip_dim h (i - 1)))

-- ================================================================================================
-- Frame slots, ImagesInFlight and swapchain recreation
-- (`create_sync_objects` src/main.rs:1032-1050, `App::recreate_swapchain` src/main.rs:216-235)
-- ================================================================================================

/-- A `vk::Fence` value as stored in `images_in_flight`: either the null
sentinel (`vk::Fence::null()`) or the in-flight fence of a frame slot,
identified by an opaque handle. -/
inductive Fence where
  | null : Fence
  | handle : Nat → Fence
  deriving DecidableEq

/-- `MAX_FRAMES_IN_FLIGHT` (src/main.rs:48). -/
def MAX_FRAMES_IN_FLIGHT : Nat := 2

/-- Rust `Vec::resize(new_len, Fence::null())` as called on `images_in_flight`
(src/main.rs:232): truncate when shrinking, append the fill value when growing,
and leave all existing entries untouched. -/
def vecResizeNull (v : List Fence) (newLen : Nat) : List Fence :=
  if newLen ≤ v.length then v.take newLen
  else v ++ List.replicate (newLen - v.length) Fence.null

/-- The fields of `AppData` (src/main.rs:320-369) that the frame-slot and
recreation claims read or write. Semaphore and fence objects are opaque
handles modeled as `Nat`. -/
structure RenderData where
  swapchainImageCount : Nat
  imageAvailableSemaphores : List Nat
  renderFinishedSemaphores : List Nat
  inFlightFences : List Nat
  imagesInFlight : List Fence

/-- `create_sync_objects` (src/main.rs:1032-1050): push one acquire semaphore,
one render-finished semaphore and one (initially signaled) in-flight fence per
frame slot, `MAX_FRAMES_IN_FLIGHT` times, then size `images_in_flight` to the
swapchain image count with every entry `vk::Fence::null()`. The freshly created
handles are modeled as the slot indices `0, ..., MAX_FRAMES_IN_FLIGHT - 1`. -/
def create_sync_objects (imageCount : Nat) : RenderData :=
  { swapchainImageCount := imageCount
    imageAvailableSemaphores := List.range MAX_FRAMES_IN_FLIGHT
    renderFinishedSemaphores := List.range MAX_FRAMES_IN_FLIGHT
    inFlightFences := List.range MAX_FRAMES_IN_FLIGHT
    imagesInFlight := List.replicate imageCount Fence.null }

/-- `App::recreate_swapchain` (src/main.rs:216-235) restricted to the
`RenderData` fields: it rebuilds the swapchain-dependent objects (yielding a new
image count), never assigns the three frame-slot arrays, and resizes
`images_in_flight` to the new image count with `vk::Fence::null()` as the fill
value for newly added slots only (src/main.rs:232). -/
def recreate_swapchain (d : RenderData) (newImageCount : Nat) : RenderData :=
  { d with
    swapchainImageCount := newImageCount
    imagesInFlight := vecResizeNull d.imagesInFlight newImageCount }

-- ================================================================================================
-- Present-result handling (`App::render`, src/main.rs:201-213)
-- ================================================================================================

/-- The outcome of `queue_present_khr` as `App::render` inspects it
(src/main.rs:201-202): plain success, the `SUBOPTIMAL_KHR` success code, the
`OUT_OF_DATE_KHR` error code, or any other error code. -/
inductive PresentOutcome where
  | success
  | suboptimal
  | outOfDate
  | otherError (code : Nat)
  deriving DecidableEq

/-- What the tail of `App::render` decides to do after presenting. -/
inductive PresentAction where
  | recreate
  | keepGoing
  | fatal (code : Nat)
  deriving DecidableEq

/-- The present-result handling of `App::render` (src/main.rs:201-209):
`changed = (result == Ok(SUBOPTIMAL_KHR)) || (result == Err(OUT_OF_DATE_KHR))`;
if `resized || changed`, clear the flag and recreate the swapchain; otherwise
propagate any error. -/
def handle_present (resized : Bool) (r : PresentOutcome) : PresentAction :=
  let changed := r == PresentOutcome.suboptimal || r == PresentOutcome.outOfDate
  if resized || changed then PresentAction.recreate
  else match r with
    | PresentOutcome.otherError c => PresentAction.fatal c
    | _ => PresentAction.keepGoing

/-- The value `App::render` returns from the present step onward
(src/main.rs:204-213): `Ok` — with a flag recording whether a full recreation
ran — unless the error branch returns `Err(e)`; in the `Ok` cases the loop
advances the frame counter and keeps producing frames. -/
def present_step (resized : Bool) (r : PresentOutcome) : Except Nat Bool :=
  match handle_present resized r with
  | PresentAction.recreate => Except.ok true
  | PresentAction.keepGoing => Except.ok false
  | PresentAction.fatal c => Except.error c

-- ================================================================================================
-- Per-frame uniform update (`App::update_uniform_buffer`, src/main.rs:280-317)
-- ================================================================================================

/-- `size_of::<UniformBufferObject>()`: three 4×4 `f32` matrices — `model`,
`view`, `proj` (src/main.rs:304) — 3 × 16 × 4 bytes. -/
def uniformBufferObjectSize : Nat := 192

/-- The effect of `map_memory(memory, 0, size_of::<UniformBufferObject>(), ..)`,
`memcpy(&ubo, memory, 1)`, `unmap_memory` on one uniform buffer's memory
(src/main.rs:306-314): the first `size_of::<UniformBufferObject>()` bytes
become the encoded UBO, every later byte is untouched. -/
def writeUbo (mem : List Nat) (uboBytes : List Nat) : List Nat :=
  uboBytes ++ mem.drop uboBytes.length

/-- The per-frame mutable state `App::update_uniform_buffer` could possibly
touch: the frame counter, the `images_in_flight` table, and the per-image
uniform memories (each a byte list). -/
structure FrameState where
  frame : Nat
  imagesInFlight : List Fence
  uniformMemories : List (List Nat)

/-- `App::update_uniform_buffer` (src/main.rs:280-317) as a state transformer:
the `model`/`view`/`proj` matrices are computed from the elapsed time and the
swapchain extent (floating-point data, modeled as the abstract encoded byte
block `uboBytes`) and written at offset 0 of
`uniform_buffers_memory[image_index]`. The method takes `&self` and calls only
`map_memory`/`unmap_memory` on that one memory: no other field is written. -/
def update_uniform_buffer (st : FrameState) (imageIndex : Nat) (uboBytes : List Nat) : FrameState :=
  { st with
    uniformMemories :=
      st.uniformMemories.set imageIndex
        (writeUbo (st.uniformMemories.getD imageIndex []) uboBytes) }

-- ================================================================================================
-- Texture ingestion command stream (`Texture2D::load_from_file`,
-- src/objects/texture.rs:51-268)
-- ================================================================================================

/-- The image layouts mentioned by the texture upload path. -/
inductive ImageLayout where
  | undefined
  | transferDstOptimal
  | shaderReadOnlyOptimal
  | readOnlyOptimal
  deriving DecidableEq

/-- A command recorded into a command buffer by the texture upload path. -/
inductive GpuCmd where
  | pipelineBarrier (oldLayout newLayout : ImageLayout)
  | copyBufferToImage (regionCount : Nat)
  deriving DecidableEq

/-- `true` exactly on `cmd_copy_buffer_to_image` commands. -/
def isCopyCmd : GpuCmd → Bool
  | GpuCmd.copyBufferToImage _ => true
  | _ => false

/-- The `VkBufferImageCopy` regions that `Texture2D::load_from_file` builds
(src/objects/texture.rs:110-129): one full-extent region per mip level `i`,
with buffer offset `i * size` (the `offset += size` accumulator). The vector
is built and then never used. Modeled as (mip level, buffer offset) pairs. -/
def load_from_file_copy_regions (size mipLevels : Nat) : List (Nat × Nat) :=
  (List.range mipLevels).map (fun i => (i, i * size))

/-- The commands `Texture2D::load_from_file` records into `copy_cmd` between
`begin_command_buffer` (src/objects/texture.rs:83) and `end_command_buffer`
(src/objects/texture.rs:190): exactly one layout-transition barrier
`UNDEFINED → TRANSFER_DST_OPTIMAL` over all mip levels
(src/objects/texture.rs:166-186), and nothing else. -/
def load_from_file_commands : List GpuCmd :=
  [GpuCmd.pipelineBarrier ImageLayout.undefined ImageLayout.transferDstOptimal]

-- ================================================================================================
-- Vertex deduplication (`Mesh::from_filepath` src/objects/mesh.rs:48-101;
-- `Vertex` PartialEq/Eq/Hash src/objects/vertex.rs:62-90)
-- ================================================================================================

/-- Whether an IEEE-754 binary32 bit pattern (a `f32::to_bits` value) is a NaN:
exponent bits all ones and a non-zero mantissa. -/
def f32IsNan (b : Nat) : Bool :=
  ((b / 2 ^ 23) % 2 ^ 8 == 255) && (b % 2 ^ 23 != 0)

/-- Whether a binary32 bit pattern represents `+0.0` or `-0.0`: everything but
the sign bit is zero. -/
def f32IsZero (b : Nat) : Bool :=
  b % 2 ^ 31 == 0

/-- IEEE-754 binary32 equality `f32 == f32` — the comparison used by
`impl PartialEq for Vertex` (src/objects/vertex.rs:62-69) — on raw bit
patterns: a NaN compares unequal to everything (itself included),
`+0.0 == -0.0`, and every other pair is equal exactly when the bit patterns
coincide. -/
def f32BitsEq (a b : Nat) : Bool :=
  if f32IsNan a || f32IsNan b then false
  else if f32IsZero a && f32IsZero b then true
  else a == b

/-- The zero-normalized bit pattern: `-0.0` is identified with `+0.0`. On
non-NaN patterns `f32BitsEq` is equality of these canonical forms. -/
def f32Canon (b : Nat) : Nat :=
  if f32IsZero b then 0 else b

/-- A parsed vertex (src/objects/vertex.rs:7-14): position, color,
texture-coordinate (V already flipped by the loader, src/objects/mesh.rs:87)
and normal, each `f32` component held as its bit pattern (`to_bits`, the
representation `impl Hash for Vertex` reads). -/
structure Vertex where
  posX : Nat
  posY : Nat
  posZ : Nat
  colorR : Nat
  colorG : Nat
  colorB : Nat
  texU : Nat
  texV : Nat
  normalX : Nat
  normalY : Nat
  normalZ : Nat
  deriving DecidableEq, Inhabited

/-- `Vertex::eq` (src/objects/vertex.rs:62-69): componentwise `f32` equality of
all four fields (eleven scalar components in total). -/
def vertexEq (v w : Vertex) : Bool :=
  f32BitsEq v.posX w.posX && f32BitsEq v.posY w.posY && f32BitsEq v.posZ w.posZ &&
  f32BitsEq v.colorR w.colorR && f32BitsEq v.colorG w.colorG && f32BitsEq v.colorB w.colorB &&
  f32BitsEq v.texU w.texU && f32BitsEq v.texV w.texV &&
  f32BitsEq v.normalX w.normalX && f32BitsEq v.normalY w.normalY && f32BitsEq v.normalZ w.normalZ

/-- A vertex with at least one NaN component. Such a vertex is `Vertex::eq` to
no vertex, not even itself. -/
def vertexHasNan (v : Vertex) : Bool :=
  f32IsNan v.posX || f32IsNan v.posY || f32IsNan v.posZ ||
  f32IsNan v.colorR || f32IsNan v.colorG || f32IsNan v.colorB ||
  f32IsNan v.texU || f32IsNan v.texV ||
  f32IsNan v.normalX || f32IsNan v.normalY || f32IsNan v.normalZ

/-- The key test of `HashMap<Vertex, usize>`: a probe `v` finds a stored key
`w` exactly when the hashes agree and `Vertex::eq` accepts. `impl Hash for
Vertex` (src/objects/vertex.rs:73-90) hashes the `to_bits` bit patterns of all
eleven components, so — under the standard no-hash-collision reading of
`HashMap`, distinct bit-pattern tuples hashing to distinct values — hashes
agree exactly when `w` and `v` are bit-identical (structural equality `==`
here), and `Vertex::eq` is the `f32 ==` comparison `vertexEq`. -/
def vertexKeyMatch (w v : Vertex) : Bool :=
  (w == v) && vertexEq w v

/-- `unique_vertices.get(&vertex)` (src/objects/mesh.rs:92). Each key is stored
with its insertion index, which equals its position in the deduplicated
`vertices` list, so lookup returns the position of the entry matching on
hash and equality (`vertexKeyMatch`); pairwise-unmatching storage makes it
unique when it exists. -/
def findKeyIdx (vs : List Vertex) (v : Vertex) : Option Nat :=
  match vs with
  | [] => none
  | w :: rest => if vertexKeyMatch w v then some 0 else (findKeyIdx rest v).map (· + 1)

/-- The deduplication loop of `Mesh::from_filepath` (src/objects/mesh.rs:92-99)
processing the per-face vertex stream from state `vs` (the deduplicated
vertices collected so far): a map hit pushes the stored index, a miss appends
the vertex and pushes the next dense index `vertices.len()`. Returns the final
deduplicated vertex list and the index stream. -/
def dedupAux (vs : List Vertex) : List Vertex → List Vertex × List Nat
  | [] => (vs, [])
  | v :: rest =>
    match findKeyIdx vs v with
    | some k =>
      let r := dedupAux vs rest
      (r.1, k :: r.2)
    | none =>
      let r := dedupAux (vs ++ [v]) rest
      (r.1, vs.length :: r.2)

/-- The full deduplication pass of `Mesh::from_filepath`
(src/objects/mesh.rs:48-101) over the stream of per-face vertices, starting
from an empty map. -/
def dedupVertices (input : List Vertex) : List Vertex × List Nat :=
  dedupAux [] input

/-- A vertex whose x-position is the canonical quiet NaN bit pattern
`0x7FC00000` and whose other components are `+0.0`. -/
def nanVertex : Vertex :=
  { posX := 0x7FC00000
    posY := 0, posZ := 0
    colorR := 0, colorG := 0, colorB := 0
    texU := 0, texV := 0
    normalX := 0, normalY := 0, normalZ := 0 }

/-- A sample vertex: all components `+0.0`. -/
def vertexA : Vertex :=
  { posX := 0, posY := 0, posZ := 0
    colorR := 0, colorG := 0, colorB := 0
    texU := 0, texV := 0
    normalX := 0, normalY := 0, normalZ := 0 }

/-- A sample vertex: x-position `1.0f` (bit pattern `0x3F800000`), every other
component `+0.0`. -/
def vertexB : Vertex :=
  { posX := 0x3F800000
    posY := 0, posZ := 0
    colorR := 0, colorG := 0, colorB := 0
    texU := 0, texV := 0
    normalX := 0, normalY := 0, normalZ := 0 }

/-- A sample vertex: x-position `-0.0` (bit pattern `0x80000000`), every other
component `+0.0`. It is `f32 ==`-equal to `vertexA` but bit-distinct, so its
hash differs and the deduplication map does not identify the two. -/
def vertexC : Vertex :=
  { posX := 0x80000000
    posY := 0, posZ := 0
    colorR := 0, colorG := 0, colorB := 0
    texU := 0, texV := 0
    normalX := 0, normalY := 0, normalZ := 0 }

-- ================================================================================================
-- Steady-state render-loop synchronization (`App::render`, src/main.rs:153-214)
-- ================================================================================================

/-- The synchronization-relevant state of the render loop and the GPU: the
current frame slot `frame` (src/main.rs:97), the signaled status of each frame
slot's in-flight fence (the fence of slot `f` is identified as `f`; indices
`≥ MAX_FRAMES_IN_FLIGHT` are unused and stay signaled), the `images_in_flight`
table mapping each swapchain image index to the slot fence last submitted
against it (src/main.rs:347), and the list of GPU submissions still executing,
each recorded as (slot fence, image index). -/
structure SyncState where
  frame : Nat
  fenceSignaled : Nat → Bool
  imagesInFlight : List Fence
  active : List (Nat × Nat)

/-- The state right after startup: frame 0, both in-flight fences created in
the signaled state (`FenceCreateFlags::SIGNALED`, src/main.rs:1037-1038),
`images_in_flight` all null (src/main.rs:1047), no GPU work outstanding. -/
def initSyncState (imageCount : Nat) : SyncState :=
  { frame := 0
    fenceSignaled := fun _ => true
    imagesInFlight := List.replicate imageCount Fence.null
    active := [] }

/-- One atomic transition of the render loop or the GPU. -/
inductive SyncStep : SyncState → SyncState → Prop where
  /-- The GPU retires one outstanding submission and signals the fence that
  `queue_submit` associated with it (src/main.rs:192). -/
  | complete (s : SyncState) (f img : Nat) (hmem : (f, img) ∈ s.active) :
      SyncStep s
        { s with
          active := s.active.erase (f, img)
          fenceSignaled := fun g => if g = f then true else s.fenceSignaled g }
  /-- One pass of `App::render` that reaches `queue_submit`
  (src/main.rs:153-192): the first `wait_for_fences` blocks until slot
  `frame`'s fence is signaled (src/main.rs:154, hypothesis `hwaitFrame`);
  `acquire_next_image_khr` yields image `img`; when `images_in_flight[img]` is
  a non-null fence, the second `wait_for_fences` blocks until that fence is
  signaled (src/main.rs:169-175, hypothesis `hwaitImage`); the table records
  slot `frame`'s fence for `img` (src/main.rs:177); `reset_fences` unsignals
  that fence (src/main.rs:191); `queue_submit` makes the submission
  outstanding (src/main.rs:192); the frame counter advances modulo
  `MAX_FRAMES_IN_FLIGHT` (src/main.rs:211). -/
  | render (s : SyncState) (img : Nat)
      (himg : img < s.imagesInFlight.length)
      (hwaitFrame : s.fenceSignaled s.frame = true)
      (hwaitImage : ∀ g, s.imagesInFlight.getD img Fence.null = Fence.handle g →
        s.fenceSignaled g = true) :
      SyncStep s
        { frame := (s.frame + 1) % MAX_FRAMES_IN_FLIGHT
          fenceSignaled := fun g => if g = s.frame then false else s.fenceSignaled g
          imagesInFlight := s.imagesInFlight.set img (Fence.handle s.frame)
          active := (s.frame, img) :: s.active }
  /-- `App::recreate_swapchain` (src/main.rs:216-235), reached from the
  out-of-date acquire path (src/main.rs:165) or the present path
  (src/main.rs:204-206): `device_wait_idle` blocks until no submission is
  outstanding (hypothesis `hidle`), the swapchain is rebuilt with a possibly
  different image count, and `images_in_flight` is resized (src/main.rs:232). -/
  | recreate (s : SyncState) (newCount : Nat) (hidle : s.active = []) :
      SyncStep s { s with imagesInFlight := vecResizeNull s.imagesInFlight newCount }

/-- States reachable from startup through render-loop and GPU transitions. -/
inductive SyncReachable : SyncState → Prop where
  | init (imageCount : Nat) : SyncReachable (initSyncState imageCount)
  | step {s t : SyncState} (h : SyncReachable s) (hst : SyncStep s t) : SyncReachable t

/-- The inductive invariant of the render loop: the frame slot is in range;
every outstanding submission uses a slot fence, no two of them share a fence,
no two of them target the same swapchain image; the fence of every outstanding
submission is unsignaled; each outstanding submission's image entry in
`images_in_flight` is exactly its fence; fences outside the slot range are
signaled (unused). -/
def SyncInv (s : SyncState) : Prop :=
  s.frame < MAX_FRAMES_IN_FLIGHT ∧
  (∀ p ∈ s.active, p.1 < MAX_FRAMES_IN_FLIGHT) ∧
  s.active.Pairwise (fun p q => p.1 ≠ q.1) ∧
  s.active.Pairwise (fun p q => p.2 ≠ q.2) ∧
  (∀ p ∈ s.active, s.fenceSignaled p.1 = false) ∧
  (∀ p ∈ s.active, p.2 < s.imagesInFlight.length ∧
    s.imagesInFlight.getD p.2 Fence.null = Fence.handle p.1) ∧
  (∀ g, MAX_FRAMES_IN_FLIGHT ≤ g → s.fenceSignaled g = true)

-- ================================================================================================
-- Theorems
-- ================================================================================================

theorem findSuitableFrom_spec (memoryTypeBits properties : Nat) (types : List MemoryType) :
    ∀ n i, match findSuitableFrom memoryTypeBits properties types i n with
    | some k => i ≤ k ∧ k < i + n ∧ suitableMemoryType memoryTypeBits properties types k = true ∧
        ∀ j, i ≤ j → j < k → suitableMemoryType memoryTypeBits properties types j = false
    | none => ∀ j, i ≤ j → j < i + n → suitableMemoryType memoryTypeBits properties types j = false := by
  intro n
  induction n with
  | zero => intro i j hij hji; omega
  | succ n ih =>
    intro i
    by_cases h : suitableMemoryType memoryTypeBits properties types i = true
    · simp only [findSuitableFrom, h, if_true]
      exact ⟨Nat.le_refl i, by omega, trivial, fun j hij hji => by omega⟩
    · have hfalse : suitableMemoryType memoryTypeBits properties types i = false :=
        Bool.eq_false_iff.mpr h
      simp only [findSuitableFrom, hfalse, Bool.false_eq_true, if_false]
      have := ih (i + 1)
      revert this
      cases hres : findSuitableFrom memoryTypeBits properties types (i + 1) n with
      | some k =>
        intro ⟨h1, h2, h3, h4⟩
        refine ⟨by omega, by omega, h3, fun j hij hjk => ?_⟩
        rcases Nat.eq_or_lt_of_le hij with heq | hlt
        · exact heq ▸ hfalse
        · exact h4 j hlt hjk
      | none =>
        intro hnone j hij hji
        rcases Nat.eq_or_lt_of_le hij with heq | hlt
        · exact heq ▸ hfalse
        · exact hnone j hlt (by omega)

/-- C4: for every memory-requirement bitmask and requested property-flags pair,
`get_memory_type_index` returns the lowest index `i` such that bit `i` is set
in the bitmask and the memory type's property flags are a superset of the
requested flags; if no index satisfies both it returns the
no-suitable-memory-type error (modeled as `none`). -/
theorem get_memory_type_index_spec (types : List MemoryType) (properties memoryTypeBits : Nat) :
    match get_memory_type_index types properties memoryTypeBits with
    | some i => i < types.length ∧ suitableMemoryType memoryTypeBits properties types i = true ∧
        ∀ j < i, suitableMemoryType memoryTypeBits properties types j = false
    | none => ∀ i < types.length, suitableMemoryType memoryTypeBits properties types i = false := by
  have h := findSuitableFrom_spec memoryTypeBits properties types types.length 0
  revert h
  unfold get_memory_type_index
  cases findSuitableFrom memoryTypeBits properties types 0 types.length with
  | some k =>
    intro ⟨h1, h2, h3, h4⟩
    exact ⟨by omega, h3, fun j hj => h4 j (Nat.zero_le j) hj⟩
  | none =>
    intro h i hi
    exact h i (Nat.zero_le i) (by omega)

theorem nat_log2_value {n k : Nat} (h1 : 2 ^ k ≤ n) (h2 : n < 2 ^ (k + 1)) : Nat.log2 n = k := by
  have hlog : Nat.log2 n = Nat.log 2 n := Nat.log2_eq_log_two
  rw [hlog]
  exact Nat.log_eq_of_pow_le_of_lt_pow h1 h2

theorem nat_log2_pow (k : Nat) : Nat.log2 (2 ^ k) = k := by
  refine nat_log2_value (Nat.le_refl _) ?_
  rw [pow_succ]
  have hp := Nat.two_pow_pos k
  omega

theorem texture_mip_levels_unfolded (f : Nat → Nat) (w h : Nat) :
    texture_mip_levels f w h = f (roundF32U32 (max w h)) + 1 := rfl

theorem roundF32U32_pow {k : Nat} (hk : k ≤ 31) : roundF32U32 (2 ^ k) = 2 ^ k := by
  interval_cases k <;> decide

theorem texture_mip_levels_pow (floorLog2F : Nat → Nat)
    (hpow : ∀ k, floorLog2F (2 ^ k) = k) (a b j : Nat) (hj : j ≤ 31)
    (hab : max a b = 2 ^ j) :
    texture_mip_levels floorLog2F a b = j + 1 := by
  rw [texture_mip_levels_unfolded, hab, roundF32U32_pow hj, hpow j]

/-- C6 counterexample: the claim fails at the decodable pixel dimensions
33554431×1. `33554431 as f32` rounds — to nearest, ties to even, as IEEE-754
mandates — to the exact power `2 ^ 25 = 33554432`, and `log2f` of an exact
power of two is exactly its exponent (here `Nat.log2` stands in for the
platform floor∘log2f, with which every faithfully rounded `log2f` agrees at
`2 ^ 25`), so `Texture2D::load_from_file` computes `25 + 1 = 26` mip levels,
while `floor(log2(max(33554431, 1))) + 1 = 24 + 1 = 25`. -/
theorem texture_mip_levels_counterexample :
    roundF32U32 33554431 = 2 ^ 25 ∧
    texture_mip_levels Nat.log2 33554431 1 = 26 ∧
    Nat.log2 (max 33554431 1) + 1 = 25 ∧ (26 : Nat) ≠ 25 := by
  refine ⟨by decide, ?_, ?_, by decide⟩
  · rw [texture_mip_levels_unfolded]
    have h1 : max 33554431 1 = 33554431 := by omega
    rw [h1, (by decide : roundF32U32 33554431 = 2 ^ 25), nat_log2_pow]
  · have h1 : max 33554431 1 = 33554431 := by omega
    rw [h1, nat_log2_value (k := 24) (by norm_num) (by norm_num)]

/-- C6 (amended): the computed mip level count is
`floor(log2f(f32(max(width, height)))) + 1`, with the `u32 → f32` conversion
rounding to nearest (ties to even). Whenever the larger dimension is an exact
power of two `2 ^ k` (`k ≤ 31`) the conversion is exact and any faithfully
rounded `log2f` yields exactly `k`, so the count equals
`floor(log2(max(width, height))) + 1`, characterized by
`2 ^ (count - 1) ≤ max < 2 ^ count`; in particular 1024×768 yields 11,
512×512 yields 10 and 1×1 yields 1. The equality does not extend to every
decodable image (see the 33554431×1 counterexample), and for dimensions that
are not powers of two the exact count additionally depends on the platform
`log2f`, whose precision Rust leaves unspecified. -/
theorem texture_mip_levels_spec (floorLog2F : Nat → Nat)
    (hpow : ∀ k, floorLog2F (2 ^ k) = k)
    (w h k : Nat) (_hw : 1 ≤ w) (_hh : 1 ≤ h) (hk : max w h = 2 ^ k) (hk31 : k ≤ 31) :
    texture_mip_levels floorLog2F w h = Nat.log2 (max w h) + 1 ∧
    2 ^ (texture_mip_levels floorLog2F w h - 1) ≤ max w h ∧
    max w h < 2 ^ texture_mip_levels floorLog2F w h ∧
    texture_mip_levels floorLog2F 1024 768 = 11 ∧
    texture_mip_levels floorLog2F 512 512 = 10 ∧
    texture_mip_levels floorLog2F 1 1 = 1 := by
  have h1 : texture_mip_levels floorLog2F w h = k + 1 :=
    texture_mip_levels_pow floorLog2F hpow w h k hk31 hk
  have hp := Nat.two_pow_pos k
  refine ⟨?_, ?_, ?_, ?_, ?_, ?_⟩
  · rw [h1, hk, nat_log2_pow]
  · rw [h1, hk, Nat.add_sub_cancel]
  · rw [h1, hk, pow_succ]
    omega
  · exact texture_mip_levels_pow floorLog2F hpow 1024 768 10 (by omega)
      (by rw [(by norm_num : (2 : Nat) ^ 10 = 1024)]; omega)
  · exact texture_mip_levels_pow floorLog2F hpow 512 512 9 (by omega)
      (by rw [(by norm_num : (2 : Nat) ^ 9 = 512)]; omega)
  · exact texture_mip_levels_pow floorLog2F hpow 1 1 0 (by omega)
      (by rw [(by norm_num : (2 : Nat) ^ 0 = 1)]; omega)

theorem texture_mip_levels_spec_witness :
    texture_mip_levels Nat.log2 1024 768 = Nat.log2 (max 1024 768) + 1 ∧
    2 ^ (texture_mip_levels Nat.log2 1024 768 - 1) ≤ max 1024 768 ∧
    max 1024 768 < 2 ^ texture_mip_levels Nat.log2 1024 768 ∧
    texture_mip_levels Nat.log2 1024 768 = 11 ∧
    texture_mip_levels Nat.log2 512 512 = 10 ∧
    texture_mip_levels Nat.log2 1 1 = 1 :=
  texture_mip_levels_spec Nat.log2 nat_log2_pow 1024 768 10 (by decide) (by decide)
    (by rw [(by norm_num : (2 : Nat) ^ 10 = 1024)]; omega) (by decide)

theorem one_le_mip_dim {w : Nat} (hw : 1 ≤ w) (i : Nat) : 1 ≤ mip_dim w i := by
  induction i with
  | zero => exact hw
  | succ i ih =>
    show 1 ≤ next_mip_dim (mip_dim w i)
    unfold next_mip_dim
    split
    · omega
    · exact ih

theorem blit_dst_dim_eq_max {n : Nat} (hn : 1 ≤ n) : blit_dst_dim n = max 1 (n / 2) := by
  unfold blit_dst_dim
  split
  · omega
  · omega

theorem next_mip_dim_eq_blit {n : Nat} (hn : 1 ≤ n) : next_mip_dim n = blit_dst_dim n := by
  unfold next_mip_dim blit_dst_dim
  split
  · rfl
  · omega

/-- C7: in mip-chain generation starting from extent `(w, h)`, the blit for
level `i ≥ 1` targets the extent obtained from level `i - 1`'s extent by
halving each dimension independently with integer floor division clamped to a
minimum of 1, and that target is exactly level `i`'s extent; for 1024×768 the
successive widths are 1024,512,256,128,64,32,16,8,4,2,1 and the heights
768,384,192,96,48,24,12,6,3,1,1. -/
theorem generate_mipmaps_extent_spec (w h i : Nat) (hw : 1 ≤ w) (hh : 1 ≤ h) (hi : 1 ≤ i) :
    blit_dst_extent w h i = (max 1 (mip_dim w (i - 1) / 2), max 1 (mip_dim h (i - 1) / 2)) ∧
    (mip_dim w i, mip_dim h i) = blit_dst_extent w h i ∧
    mip_dims 1024 11 = [1024, 512, 256, 128, 64, 32, 16, 8, 4, 2, 1] ∧
    mip_dims 768 11 = [768, 384, 192, 96, 48, 24, 12, 6, 3, 1, 1] := by
  obtain ⟨k, rfl⟩ : ∃ k, i = k + 1 := ⟨i - 1, by omega⟩
  refine ⟨?_, ?_, by decide, by decide⟩
  · unfold blit_dst_extent
    rw [blit_dst_dim_eq_max (one_le_mip_dim hw _), blit_dst_dim_eq_max (one_le_mip_dim hh _)]
  · show (next_mip_dim (mip_dim w k), next_mip_dim (mip_dim h k)) = blit_dst_extent w h (k + 1)
    unfold blit_dst_extent
    simp only [Nat.add_sub_cancel]
    rw [next_mip_dim_eq_blit (one_le_mip_dim hw k), next_mip_dim_eq_blit (one_le_mip_dim hh k)]

theorem generate_mipmaps_extent_spec_witness :
    blit_dst_extent 1024 768 1 = (max 1 (mip_dim 1024 0 / 2), max 1 (mip_dim 768 0 / 2)) ∧
    (mip_dim 1024 1, mip_dim 768 1) = blit_dst_extent 1024 768 1 ∧
    mip_dims 1024 11 = [1024, 512, 256, 128, 64, 32, 16, 8, 4, 2, 1] ∧
    mip_dims 768 11 = [768, 384, 192, 96, 48, 24, 12, 6, 3, 1, 1] :=
  generate_mipmaps_extent_spec 1024 768 1 (by decide) (by decide) (by decide)

theorem vecResizeNull_length (v : List Fence) (n : Nat) : (vecResizeNull v n).length = n := by
  unfold vecResizeNull
  split
  · simp; omega
  · simp; omega

/-- C2 counterexample: recreating a swapchain that keeps image count 1, when
`images_in_flight[0]` holds a frame slot's fence, leaves that entry equal to the
old fence — not the null sentinel. -/
theorem recreate_swapchain_stale_entry :
    (recreate_swapchain
      { swapchainImageCount := 1
        imageAvailableSemaphores := [0, 1]
        renderFinishedSemaphores := [0, 1]
        inFlightFences := [0, 1]
        imagesInFlight := [Fence.handle 0] } 1).imagesInFlight = [Fence.handle 0] ∧
    Fence.handle 0 ≠ Fence.null := by
  exact ⟨rfl, by decide⟩

/-- C2 (amended): after every swapchain recreation the `ImagesInFlight` array
has length equal to the new swapchain image count; entries at or beyond the old
length are the null sentinel, but entries below the old length retain their
previous fence values — they are not reset. -/
theorem recreate_swapchain_images_in_flight (d : RenderData) (n : Nat) :
    (recreate_swapchain d n).imagesInFlight.length = n ∧
    (recreate_swapchain d n).swapchainImageCount = n ∧
    (∀ i, d.imagesInFlight.length ≤ i → i < n →
      (recreate_swapchain d n).imagesInFlight[i]? = some Fence.null) ∧
    (∀ i, i < d.imagesInFlight.length → i < n →
      (recreate_swapchain d n).imagesInFlight[i]? = d.imagesInFlight[i]?) := by
  refine ⟨vecResizeNull_length d.imagesInFlight n, rfl, ?_, ?_⟩
  · intro i hlow hhigh
    show (vecResizeNull d.imagesInFlight n)[i]? = some Fence.null
    unfold vecResizeNull
    rw [if_neg (by omega)]
    rw [List.getElem?_append_right hlow]
    rw [List.getElem?_replicate]
    rw [if_pos (by omega)]
  · intro i hlow hhigh
    show (vecResizeNull d.imagesInFlight n)[i]? = d.imagesInFlight[i]?
    unfold vecResizeNull
    split
    · rw [List.getElem?_take_of_lt hhigh]
    · rw [List.getElem?_append, if_pos hlow]

theorem recreate_swapchain_images_in_flight_witness :
    (recreate_swapchain
      { swapchainImageCount := 1
        imageAvailableSemaphores := [0, 1]
        renderFinishedSemaphores := [0, 1]
        inFlightFences := [0, 1]
        imagesInFlight := [Fence.handle 1] } 2).imagesInFlight.length = 2 ∧
    (recreate_swapchain
      { swapchainImageCount := 1
        imageAvailableSemaphores := [0, 1]
        renderFinishedSemaphores := [0, 1]
        inFlightFences := [0, 1]
        imagesInFlight := [Fence.handle 1] } 2).imagesInFlight[1]? = some Fence.null ∧
    (recreate_swapchain
      { swapchainImageCount := 1
        imageAvailableSemaphores := [0, 1]
        renderFinishedSemaphores := [0, 1]
        inFlightFences := [0, 1]
        imagesInFlight := [Fence.handle 1] } 2).imagesInFlight[0]? = some (Fence.handle 1) :=
  have h := recreate_swapchain_images_in_flight
    { swapchainImageCount := 1
      imageAvailableSemaphores := [0, 1]
      renderFinishedSemaphores := [0, 1]
      inFlightFences := [0, 1]
      imagesInFlight := [Fence.handle 1] } 2
  ⟨h.1, h.2.2.1 1 (by decide) (by decide), (h.2.2.2 0 (by decide) (by decide)).trans (by decide)⟩

/-- C3 counterexample: with the resize flag set and a present failure that is
neither suboptimal nor out-of-date (error code 5), `App::render` recreates the
swapchain and returns `Ok` — the error is not propagated, contradicting "every
other present failure is fatal". -/
theorem present_step_error_swallowed :
    present_step true (PresentOutcome.otherError 5) = Except.ok true ∧
    present_step true (PresentOutcome.otherError 5) ≠ Except.error 5 := by
  refine ⟨rfl, fun h => ?_⟩
  rw [show present_step true (PresentOutcome.otherError 5) = Except.ok true from rfl] at h
  exact Except.noConfusion h

/-- C3 (amended): a suboptimal or out-of-date present result, or an externally
flagged resize, triggers a full swapchain recreation and the render call
returns `Ok` (the loop keeps producing frames); any other present failure is
propagated as a fatal error only when no resize is flagged — a flagged resize
takes precedence and swallows the error; a plain success without resize flag
continues without recreation. -/
theorem present_step_spec (resized : Bool) (r : PresentOutcome) :
    (r = PresentOutcome.suboptimal ∨ r = PresentOutcome.outOfDate ∨ resized = true →
      present_step resized r = Except.ok true) ∧
    (∀ c, r = PresentOutcome.otherError c → resized = false →
      present_step resized r = Except.error c) ∧
    present_step false PresentOutcome.success = Except.ok false := by
  refine ⟨?_, ?_, rfl⟩
  · intro hr
    rcases hr with h | h | h
    · subst h; cases resized <;> rfl
    · subst h; cases resized <;> rfl
    · subst h; cases r <;> rfl
  · intro c hc hres
    subst hc; subst hres; rfl

theorem present_step_spec_witness :
    present_step false PresentOutcome.suboptimal = Except.ok true :=
  (present_step_spec false PresentOutcome.suboptimal).1 (Or.inl rfl)

/-- C9: exactly `MAX_FRAMES_IN_FLIGHT` = 2 frame slots (acquire semaphore,
render-finished semaphore, in-flight fence) are created by
`create_sync_objects`, and `App::recreate_swapchain` leaves all three
frame-slot arrays exactly as they were — recreation never resizes or replaces
them; only the shutdown path (`App::destroy`) destroys them. -/
theorem frame_slots_fixed (imageCount : Nat) (d : RenderData) (n : Nat) :
    (create_sync_objects imageCount).imageAvailableSemaphores.length = MAX_FRAMES_IN_FLIGHT ∧
    (create_sync_objects imageCount).renderFinishedSemaphores.length = MAX_FRAMES_IN_FLIGHT ∧
    (create_sync_objects imageCount).inFlightFences.length = MAX_FRAMES_IN_FLIGHT ∧
    MAX_FRAMES_IN_FLIGHT = 2 ∧
    (create_sync_objects imageCount).imagesInFlight = List.replicate imageCount Fence.null ∧
    (recreate_swapchain d n).imageAvailableSemaphores = d.imageAvailableSemaphores ∧
    (recreate_swapchain d n).renderFinishedSemaphores = d.renderFinishedSemaphores ∧
    (recreate_swapchain d n).inFlightFences = d.inFlightFences := by
  refine ⟨?_, ?_, ?_, rfl, rfl, rfl, rfl, rfl⟩ <;> simp [create_sync_objects]

/-- C10: for every image index `i`, `update_uniform_buffer` writes one
`UniformBufferObject` at offset 0 of the uniform memory for index `i`; every
other uniform memory, every byte of memory `i` past the UBO, the
`ImagesInFlight` table and the frame counter are unchanged. -/
theorem update_uniform_buffer_frame_effect (st : FrameState) (i : Nat) (ubo : List Nat)
    (hlen : ubo.length = uniformBufferObjectSize) (hi : i < st.uniformMemories.length) :
    (update_uniform_buffer st i ubo).frame = st.frame ∧
    (update_uniform_buffer st i ubo).imagesInFlight = st.imagesInFlight ∧
    (update_uniform_buffer st i ubo).uniformMemories.length = st.uniformMemories.length ∧
    (∀ j, j ≠ i →
      (update_uniform_buffer st i ubo).uniformMemories[j]? = st.uniformMemories[j]?) ∧
    (update_uniform_buffer st i ubo).uniformMemories[i]? =
      some (ubo ++ (st.uniformMemories.getD i []).drop uniformBufferObjectSize) ∧
    (∀ k, uniformBufferObjectSize ≤ k →
      ((update_uniform_buffer st i ubo).uniformMemories.getD i [])[k]? =
        (st.uniformMemories.getD i [])[k]?) := by
  refine ⟨rfl, rfl, by simp [update_uniform_buffer], ?_, ?_, ?_⟩
  · intro j hj
    show (st.uniformMemories.set i _)[j]? = st.uniformMemories[j]?
    exact List.getElem?_set_ne (fun h => hj h.symm)
  · show (st.uniformMemories.set i _)[i]? = _
    rw [List.getElem?_set_self' ]
    rw [List.getElem?_eq_getElem hi]
    simp [writeUbo, hlen, List.getD, List.getElem?_eq_getElem hi]
  · intro k hk
    have hset : (update_uniform_buffer st i ubo).uniformMemories.getD i [] =
        writeUbo (st.uniformMemories.getD i []) ubo := by
      show (st.uniformMemories.set i _).getD i [] = _
      simp [List.getD, List.getElem?_set_self', List.getElem?_eq_getElem hi]
    rw [hset]
    unfold writeUbo
    rw [List.getElem?_append_right (by omega)]
    rw [List.getElem?_drop]
    congr 1
    omega

theorem update_uniform_buffer_frame_effect_witness :
    (update_uniform_buffer ⟨3, [Fence.null], [[9, 9]]⟩ 0 (List.replicate 192 7)).frame = 3 ∧
    (update_uniform_buffer ⟨3, [Fence.null], [[9, 9]]⟩ 0
      (List.replicate 192 7)).imagesInFlight = [Fence.null] ∧
    (update_uniform_buffer ⟨3, [Fence.null], [[9, 9]]⟩ 0
      (List.replicate 192 7)).uniformMemories.length = 1 ∧
    (∀ j, j ≠ 0 →
      (update_uniform_buffer ⟨3, [Fence.null], [[9, 9]]⟩ 0
        (List.replicate 192 7)).uniformMemories[j]? = ([[9, 9]] : List (List Nat))[j]?) ∧
    (update_uniform_buffer ⟨3, [Fence.null], [[9, 9]]⟩ 0
      (List.replicate 192 7)).uniformMemories[0]? =
      some (List.replicate 192 7 ++ ([9, 9] : List Nat).drop uniformBufferObjectSize) ∧
    (∀ k, uniformBufferObjectSize ≤ k →
      ((update_uniform_buffer ⟨3, [Fence.null], [[9, 9]]⟩ 0
        (List.replicate 192 7)).uniformMemories.getD 0 [])[k]? = ([9, 9] : List Nat)[k]?) :=
  update_uniform_buffer_frame_effect ⟨3, [Fence.null], [[9, 9]]⟩ 0 (List.replicate 192 7)
    (by simp [uniformBufferObjectSize]) (by decide)

/-- C8, the code evaluated at the failing input: `Texture2D::load_from_file`
records no `cmd_copy_buffer_to_image` at all — the recorded command stream is a
single `UNDEFINED → TRANSFER_DST_OPTIMAL` barrier — even though it builds one
copy region per mip level; the staged pixel bytes are never uploaded into the
created image. -/
theorem load_from_file_never_copies (size mipLevels : Nat) :
    load_from_file_commands =
      [GpuCmd.pipelineBarrier ImageLayout.undefined ImageLayout.transferDstOptimal] ∧
    load_from_file_commands.countP isCopyCmd = 0 ∧
    (load_from_file_copy_regions size mipLevels).length = mipLevels := by
  refine ⟨rfl, rfl, ?_⟩
  simp [load_from_file_copy_regions]

theorem nat_beq_comm (a b : Nat) : (a == b) = (b == a) := by
  by_cases h : a = b
  · subst h; rfl
  · have h1 : (a == b) = false := by simp [h]
    have h2 : (b == a) = false := by simp [Ne.symm h]
    rw [h1, h2]

theorem f32IsZero_beq_false {a b : Nat} (hza : f32IsZero a = true) (hzb : f32IsZero b = false) :
    (a == b) = false := by
  have h1 : a % 2 ^ 31 = 0 := by simpa [f32IsZero] using hza
  have h2 : ¬b % 2 ^ 31 = 0 := by simpa [f32IsZero] using hzb
  have hne : a ≠ b := fun h => h2 (h ▸ h1)
  simp [hne]

theorem f32IsZero_zero : f32IsZero 0 = true := by decide

theorem f32BitsEq_canon (a b : Nat) :
    f32BitsEq a b = (!f32IsNan a && !f32IsNan b && (f32Canon a == f32Canon b)) := by
  unfold f32BitsEq f32Canon
  cases hna : f32IsNan a with
  | true => simp [hna]
  | false =>
  cases hnb : f32IsNan b with
  | true => simp [hnb]
  | false =>
  simp only [hna, hnb, Bool.or_self, Bool.not_false, Bool.true_and, Bool.false_or,
    Bool.and_self, if_false]
  cases hza : f32IsZero a with
  | true =>
    cases hzb : f32IsZero b with
    | true =>
      show true = (0 == 0)
      rfl
    | false =>
      show (a == b) = (0 == b)
      rw [f32IsZero_beq_false hza hzb, f32IsZero_beq_false f32IsZero_zero hzb]
  | false =>
    cases hzb : f32IsZero b with
    | true =>
      show (a == b) = (a == 0)
      rw [nat_beq_comm a b, f32IsZero_beq_false hzb hza, nat_beq_comm a 0,
        f32IsZero_beq_false f32IsZero_zero hza]
    | false =>
      show (a == b) = (a == b)
      rfl

theorem f32BitsEq_symm (a b : Nat) : f32BitsEq a b = f32BitsEq b a := by
  rw [f32BitsEq_canon, f32BitsEq_canon, nat_beq_comm (f32Canon a) (f32Canon b)]
  cases f32IsNan a <;> cases f32IsNan b <;> rfl

theorem f32BitsEq_trans {a b c : Nat} (h1 : f32BitsEq a b = true) (h2 : f32BitsEq b c = true) :
    f32BitsEq a c = true := by
  rw [f32BitsEq_canon] at h1 h2 ⊢
  simp only [Bool.and_eq_true, Bool.not_eq_true', beq_iff_eq] at h1 h2 ⊢
  exact ⟨⟨h1.1.1, h2.1.2⟩, h1.2.trans h2.2⟩

theorem f32BitsEq_refl {a : Nat} (h : f32IsNan a = false) : f32BitsEq a a = true := by
  rw [f32BitsEq_canon]
  simp [h]

theorem f32BitsEq_nan_left {a : Nat} (h : f32IsNan a = true) (b : Nat) :
    f32BitsEq a b = false := by
  rw [f32BitsEq_canon]
  simp [h]

theorem f32BitsEq_nan_right {b : Nat} (h : f32IsNan b = true) (a : Nat) :
    f32BitsEq a b = false := by
  rw [f32BitsEq_canon]
  simp [h]

theorem vertexEq_symm (v w : Vertex) : vertexEq v w = vertexEq w v := by
  unfold vertexEq
  rw [f32BitsEq_symm v.posX, f32BitsEq_symm v.posY, f32BitsEq_symm v.posZ,
    f32BitsEq_symm v.colorR, f32BitsEq_symm v.colorG, f32BitsEq_symm v.colorB,
    f32BitsEq_symm v.texU, f32BitsEq_symm v.texV,
    f32BitsEq_symm v.normalX, f32BitsEq_symm v.normalY, f32BitsEq_symm v.normalZ]

theorem vertexEq_trans {u v w : Vertex} (h1 : vertexEq u v = true) (h2 : vertexEq v w = true) :
    vertexEq u w = true := by
  simp only [vertexEq, Bool.and_eq_true] at h1 h2 ⊢
  obtain ⟨⟨⟨⟨⟨⟨⟨⟨⟨⟨a1, a2⟩, a3⟩, a4⟩, a5⟩, a6⟩, a7⟩, a8⟩, a9⟩, a10⟩, a11⟩ := h1
  obtain ⟨⟨⟨⟨⟨⟨⟨⟨⟨⟨b1, b2⟩, b3⟩, b4⟩, b5⟩, b6⟩, b7⟩, b8⟩, b9⟩, b10⟩, b11⟩ := h2
  exact ⟨⟨⟨⟨⟨⟨⟨⟨⟨⟨f32BitsEq_trans a1 b1, f32BitsEq_trans a2 b2⟩, f32BitsEq_trans a3 b3⟩,
    f32BitsEq_trans a4 b4⟩, f32BitsEq_trans a5 b5⟩, f32BitsEq_trans a6 b6⟩,
    f32BitsEq_trans a7 b7⟩, f32BitsEq_trans a8 b8⟩, f32BitsEq_trans a9 b9⟩,
    f32BitsEq_trans a10 b10⟩, f32BitsEq_trans a11 b11⟩

theorem vertexEq_refl {v : Vertex} (h : vertexHasNan v = false) : vertexEq v v = true := by
  simp only [vertexHasNan, Bool.or_eq_false_iff] at h
  obtain ⟨⟨⟨⟨⟨⟨⟨⟨⟨⟨n1, n2⟩, n3⟩, n4⟩, n5⟩, n6⟩, n7⟩, n8⟩, n9⟩, n10⟩, n11⟩ := h
  simp only [vertexEq, Bool.and_eq_true]
  exact ⟨⟨⟨⟨⟨⟨⟨⟨⟨⟨f32BitsEq_refl n1, f32BitsEq_refl n2⟩, f32BitsEq_refl n3⟩,
    f32BitsEq_refl n4⟩, f32BitsEq_refl n5⟩, f32BitsEq_refl n6⟩, f32BitsEq_refl n7⟩,
    f32BitsEq_refl n8⟩, f32BitsEq_refl n9⟩, f32BitsEq_refl n10⟩, f32BitsEq_refl n11⟩

theorem vertexEq_nan_left {v : Vertex} (h : vertexHasNan v = true) (w : Vertex) :
    vertexEq v w = false := by
  simp only [vertexHasNan, Bool.or_eq_true] at h
  simp only [vertexEq]
  rcases h with ((((((((((h | h) | h) | h) | h) | h) | h) | h) | h) | h) | h) <;>
    simp [f32BitsEq_nan_left h]

theorem vertexEq_nan_right {w : Vertex} (h : vertexHasNan w = true) (v : Vertex) :
    vertexEq v w = false := by
  rw [vertexEq_symm]
  exact vertexEq_nan_left h v

theorem vertexEq_not_nan_left {v w : Vertex} (h : vertexEq v w = true) :
    vertexHasNan v = false := by
  cases hv : vertexHasNan v with
  | false => rfl
  | true => rw [vertexEq_nan_left hv w] at h; cases h

theorem vertexEq_not_nan_right {v w : Vertex} (h : vertexEq v w = true) :
    vertexHasNan w = false := by
  cases hw : vertexHasNan w with
  | false => rfl
  | true => rw [vertexEq_nan_right hw v] at h; cases h

theorem vertexKeyMatch_iff {w v : Vertex} :
    vertexKeyMatch w v = true ↔ w = v ∧ vertexHasNan v = false := by
  unfold vertexKeyMatch
  rw [Bool.and_eq_true, beq_iff_eq]
  constructor
  · rintro ⟨rfl, he⟩
    exact ⟨rfl, vertexEq_not_nan_right he⟩
  · rintro ⟨rfl, hn⟩
    exact ⟨rfl, vertexEq_refl hn⟩

theorem vertexKeyMatch_symm (w v : Vertex) : vertexKeyMatch w v = vertexKeyMatch v w := by
  cases h1 : vertexKeyMatch v w with
  | true =>
    obtain ⟨heq, hn⟩ := vertexKeyMatch_iff.mp h1
    subst heq
    exact h1
  | false =>
    cases h2 : vertexKeyMatch w v with
    | false => rfl
    | true =>
      obtain ⟨heq, hn⟩ := vertexKeyMatch_iff.mp h2
      subst heq
      rw [vertexKeyMatch_iff.mpr ⟨rfl, hn⟩] at h1
      cases h1

theorem vertexKeyMatch_trans {u v w : Vertex} (h1 : vertexKeyMatch u v = true)
    (h2 : vertexKeyMatch v w = true) : vertexKeyMatch u w = true := by
  obtain ⟨heq, _⟩ := vertexKeyMatch_iff.mp h1
  subst heq
  exact h2

theorem vertexKeyMatch_refl {v : Vertex} (h : vertexHasNan v = false) :
    vertexKeyMatch v v = true :=
  vertexKeyMatch_iff.mpr ⟨rfl, h⟩

theorem vertexKeyMatch_nan {v : Vertex} (h : vertexHasNan v = true) (w : Vertex) :
    vertexKeyMatch w v = false := by
  cases hk : vertexKeyMatch w v with
  | false => rfl
  | true =>
    obtain ⟨_, hn⟩ := vertexKeyMatch_iff.mp hk
    rw [h] at hn
    cases hn

theorem vertexKeyMatch_eq {w v : Vertex} (h : vertexKeyMatch w v = true) : w = v :=
  (vertexKeyMatch_iff.mp h).1

theorem vertexKeyMatch_ne {w v : Vertex} (h : w ≠ v) : vertexKeyMatch w v = false := by
  cases hk : vertexKeyMatch w v with
  | false => rfl
  | true => exact absurd (vertexKeyMatch_eq hk) h

theorem vertex_getD_mem {vs : List Vertex} {k : Nat} (h : k < vs.length) :
    vs.getD k default ∈ vs := by
  rw [List.getD_eq_getElem vs default h]
  exact List.getElem_mem h

theorem findKeyIdx_some {vs : List Vertex} {v : Vertex} {k : Nat}
    (h : findKeyIdx vs v = some k) :
    k < vs.length ∧ vertexKeyMatch (vs.getD k default) v = true := by
  induction vs generalizing k with
  | nil => cases h
  | cons w rest ih =>
    cases hw : vertexKeyMatch w v with
    | true =>
      rw [findKeyIdx, if_pos hw] at h
      cases h
      exact ⟨Nat.succ_pos _, hw⟩
    | false =>
      rw [findKeyIdx, if_neg (by simp [hw])] at h
      rcases hmap : findKeyIdx rest v with _ | m
      · rw [hmap] at h; cases h
      · rw [hmap] at h
        cases h
        obtain ⟨h1, h2⟩ := ih hmap
        exact ⟨by simpa using Nat.succ_lt_succ h1, by simpa [List.getD_cons_succ] using h2⟩

theorem findKeyIdx_none {vs : List Vertex} {v : Vertex} (h : findKeyIdx vs v = none) :
    ∀ w ∈ vs, vertexKeyMatch w v = false := by
  induction vs with
  | nil => intro w hw; cases hw
  | cons u rest ih =>
    intro w hw
    cases hu : vertexKeyMatch u v with
    | true => rw [findKeyIdx, if_pos hu] at h; cases h
    | false =>
      rw [findKeyIdx, if_neg (by simp [hu])] at h
      rcases List.mem_cons.mp hw with rfl | hw'
      · exact hu
      · rcases hmap : findKeyIdx rest v with _ | m
        · exact ih hmap w hw'
        · rw [hmap] at h; cases h

theorem findKeyIdx_of_getD {vs : List Vertex}
    (hpw : vs.Pairwise (fun a b => vertexKeyMatch a b = false))
    {v : Vertex} {k : Nat} (hk : k < vs.length)
    (h : vertexKeyMatch (vs.getD k default) v = true) :
    findKeyIdx vs v = some k := by
  induction vs generalizing k with
  | nil => simp at hk
  | cons w rest ih =>
    rcases List.pairwise_cons.mp hpw with ⟨hw, hrest⟩
    cases k with
    | zero =>
      rw [List.getD_cons_zero] at h
      rw [findKeyIdx, if_pos h]
    | succ m =>
      rw [List.getD_cons_succ] at h
      have hm : m < rest.length := by simpa using hk
      have hne : vertexKeyMatch w v = false := by
        cases hwv : vertexKeyMatch w v with
        | false => rfl
        | true =>
          have h1 : vertexKeyMatch w (rest.getD m default) = false := hw _ (vertex_getD_mem hm)
          have h2 : vertexKeyMatch v (rest.getD m default) = true := by
            rw [vertexKeyMatch_symm]; exact h
          have h3 : vertexKeyMatch w (rest.getD m default) = true := vertexKeyMatch_trans hwv h2
          rw [h1] at h3; cases h3
      rw [findKeyIdx, if_neg (by simp [hne]), ih hrest hm h]
      rfl

theorem dedupAux_idx_length (vs l : List Vertex) :
    (dedupAux vs l).2.length = l.length := by
  induction l generalizing vs with
  | nil => rfl
  | cons v rest ih =>
    cases h : findKeyIdx vs v with
    | some k => simp [dedupAux, h, ih]
    | none => simp [dedupAux, h, ih]

theorem dedupAux_extends (vs l : List Vertex) :
    ∃ suf, (dedupAux vs l).1 = vs ++ suf := by
  induction l generalizing vs with
  | nil => exact ⟨[], by simp [dedupAux]⟩
  | cons v rest ih =>
    cases h : findKeyIdx vs v with
    | some k =>
      obtain ⟨suf, hs⟩ := ih vs
      exact ⟨suf, by simp [dedupAux, h, hs]⟩
    | none =>
      obtain ⟨suf, hs⟩ := ih (vs ++ [v])
      refine ⟨v :: suf, ?_⟩
      simp only [dedupAux, h]
      rw [hs]
      simp

theorem dedupAux_append (vs l1 l2 : List Vertex) :
    dedupAux vs (l1 ++ l2) =
      ((dedupAux (dedupAux vs l1).1 l2).1,
        (dedupAux vs l1).2 ++ (dedupAux (dedupAux vs l1).1 l2).2) := by
  induction l1 generalizing vs with
  | nil => simp [dedupAux]
  | cons v rest ih =>
    cases h : findKeyIdx vs v with
    | some k => simp [dedupAux, h, ih]
    | none => simp [dedupAux, h, ih]

theorem dedupAux_pairwise {vs : List Vertex}
    (hpw : vs.Pairwise (fun a b => vertexKeyMatch a b = false)) (l : List Vertex) :
    (dedupAux vs l).1.Pairwise (fun a b => vertexKeyMatch a b = false) := by
  induction l generalizing vs with
  | nil => exact hpw
  | cons v rest ih =>
    cases h : findKeyIdx vs v with
    | some k => simpa [dedupAux, h] using ih hpw
    | none =>
      have hnew : (vs ++ [v]).Pairwise (fun a b => vertexKeyMatch a b = false) := by
        rw [List.pairwise_append]
        refine ⟨hpw, List.pairwise_singleton _ _, ?_⟩
        intro a ha b hb
        rcases List.mem_singleton.mp hb with rfl
        exact findKeyIdx_none h a ha
      simpa [dedupAux, h] using ih hnew

theorem dedupAux_mem {vs l : List Vertex} {u : Vertex} (h : u ∈ (dedupAux vs l).1) :
    u ∈ vs ∨ u ∈ l := by
  induction l generalizing vs with
  | nil => exact Or.inl h
  | cons v rest ih =>
    cases hf : findKeyIdx vs v with
    | some k =>
      have h' : u ∈ (dedupAux vs rest).1 := by simpa [dedupAux, hf] using h
      rcases ih h' with hv | hr
      · exact Or.inl hv
      · exact Or.inr (List.mem_cons_of_mem _ hr)
    | none =>
      have h' : u ∈ (dedupAux (vs ++ [v]) rest).1 := by simpa [dedupAux, hf] using h
      rcases ih h' with hv | hr
      · rcases List.mem_append.mp hv with h1 | h1
        · exact Or.inl h1
        · exact Or.inr (List.mem_cons.mpr (Or.inl (List.mem_singleton.mp h1)))
      · exact Or.inr (List.mem_cons_of_mem _ hr)

theorem getD_append_offset {α : Type} (l1 l2 : List α) (n : Nat) (d : α) :
    (l1 ++ l2).getD (l1.length + n) d = l2.getD n d := by
  rw [List.getD_append_right l1 l2 d _ (Nat.le_add_right _ _)]
  congr 1
  omega

theorem take_split_at (input : List Vertex) (i : Nat) (hi : i < input.length) :
    input = input.take i ++ (input.getD i default :: input.drop (i + 1)) := by
  conv_lhs => rw [← List.take_append_drop i input]
  congr 1
  rw [List.drop_eq_getElem_cons hi]
  congr 1
  exact (List.getD_eq_getElem input default hi).symm

theorem take_succ_getD (input : List Vertex) (i : Nat) (hi : i < input.length) :
    input.take (i + 1) = input.take i ++ [input.getD i default] := by
  rw [List.take_succ]
  congr 1
  rw [List.getElem?_eq_getElem hi]
  rw [List.getD_eq_getElem input default hi]
  rfl

theorem dedupAux_singleton (vs : List Vertex) (v : Vertex) :
    dedupAux vs [v] = match findKeyIdx vs v with
      | some k => (vs, [k])
      | none => (vs ++ [v], [vs.length]) := by
  cases hf : findKeyIdx vs v <;> simp [dedupAux, hf]

theorem dedup_idx_char (input : List Vertex) (i : Nat) (hi : i < input.length) :
    (dedupVertices input).2.getD i 0 =
      match findKeyIdx (dedupVertices (input.take i)).1 (input.getD i default) with
      | some k => k
      | none => (dedupVertices (input.take i)).1.length := by
  have hlen : (dedupAux [] (input.take i)).2.length = i := by
    rw [dedupAux_idx_length, List.length_take]
    omega
  simp only [dedupVertices]
  conv_lhs => rw [take_split_at input i hi, dedupAux_append]
  rw [List.getD_append_right _ _ _ _ (by omega)]
  rw [hlen, Nat.sub_self]
  set v := input.getD i default with hv
  set vs := (dedupAux [] (input.take i)).1 with hvs
  cases hf : findKeyIdx vs v with
  | some k => simp [dedupAux, hf]
  | none => simp [dedupAux, hf]

theorem dedup_uniques_succ (input : List Vertex) (i : Nat) (hi : i < input.length) :
    (dedupVertices (input.take (i + 1))).1 =
      match findKeyIdx (dedupVertices (input.take i)).1 (input.getD i default) with
      | some _ => (dedupVertices (input.take i)).1
      | none => (dedupVertices (input.take i)).1 ++ [input.getD i default] := by
  simp only [dedupVertices]
  rw [take_succ_getD input i hi, dedupAux_append, dedupAux_singleton]
  set v := input.getD i default with hv
  set vs := (dedupAux [] (input.take i)).1 with hvs
  cases hf : findKeyIdx vs v with
  | some k => simp [hf]
  | none => simp [hf]

theorem dedup_uniques_mono (input : List Vertex) {i j : Nat} (hij : i ≤ j) :
    ∃ suf, (dedupVertices (input.take j)).1 = (dedupVertices (input.take i)).1 ++ suf := by
  have hsplit : input.take j = input.take i ++ (input.drop i).take (j - i) := by
    conv_lhs => rw [show j = i + (j - i) from by omega]
    rw [List.take_add]
  rw [dedupVertices, hsplit, dedupAux_append]
  exact dedupAux_extends _ _

theorem dedup_uniques_mono_len (input : List Vertex) {i j : Nat} (hij : i ≤ j) :
    (dedupVertices (input.take i)).1.length ≤ (dedupVertices (input.take j)).1.length := by
  obtain ⟨suf, hs⟩ := dedup_uniques_mono input hij
  rw [hs, List.length_append]
  omega

theorem dedup_uniques_pairwise (l : List Vertex) :
    (dedupVertices l).1.Pairwise (fun a b => vertexKeyMatch a b = false) :=
  dedupAux_pairwise List.Pairwise.nil l

theorem dedup_entry (input : List Vertex) (i : Nat) (hi : i < input.length) :
    (dedupVertices input).2.getD i 0 < (dedupVertices (input.take (i + 1))).1.length ∧
    (vertexHasNan (input.getD i default) = false →
      vertexKeyMatch
        ((dedupVertices (input.take (i + 1))).1.getD ((dedupVertices input).2.getD i 0) default)
        (input.getD i default) = true) ∧
    (vertexHasNan (input.getD i default) = true →
      (dedupVertices input).2.getD i 0 = (dedupVertices (input.take i)).1.length ∧
      (dedupVertices (input.take (i + 1))).1.getD ((dedupVertices input).2.getD i 0) default =
        input.getD i default ∧
      (dedupVertices (input.take (i + 1))).1.length =
        (dedupVertices (input.take i)).1.length + 1) := by
  rw [dedup_idx_char input i hi, dedup_uniques_succ input i hi]
  cases hf : findKeyIdx (dedupVertices (input.take i)).1 (input.getD i default) with
  | some k =>
    obtain ⟨h1, h2⟩ := findKeyIdx_some hf
    refine ⟨h1, fun _ => h2, fun hnan => ?_⟩
    have hnn := (vertexKeyMatch_iff.mp h2).2
    rw [hnan] at hnn
    cases hnn
  | none =>
    have hlen : ((dedupVertices (input.take i)).1 ++ [input.getD i default]).length =
        (dedupVertices (input.take i)).1.length + 1 := by
      rw [List.length_append]; rfl
    have hget : ((dedupVertices (input.take i)).1 ++ [input.getD i default]).getD
        (dedupVertices (input.take i)).1.length default = input.getD i default := by
      have h := getD_append_offset (dedupVertices (input.take i)).1
        [input.getD i default] 0 default
      rw [Nat.add_zero] at h
      rw [h]
      rfl
    refine ⟨?_, fun hnn => ?_, fun hnan => ⟨rfl, hget, hlen⟩⟩
    · show (dedupVertices (input.take i)).1.length <
        ((dedupVertices (input.take i)).1 ++ [input.getD i default]).length
      rw [hlen]
      omega
    · rw [hget]
      exact vertexKeyMatch_refl hnn

theorem dedup_entry_persist (input : List Vertex) {i j : Nat} (hij : i ≤ j) {p : Nat}
    (hp : p < (dedupVertices (input.take i)).1.length) :
    p < (dedupVertices (input.take j)).1.length ∧
    (dedupVertices (input.take j)).1.getD p default =
      (dedupVertices (input.take i)).1.getD p default := by
  obtain ⟨suf, hs⟩ := dedup_uniques_mono input hij
  rw [hs]
  refine ⟨?_, List.getD_append _ _ _ _ hp⟩
  rw [List.length_append]
  omega

theorem dedup_idx_eq_of_eq_le {input : List Vertex} {i j : Nat}
    (hi : i < input.length) (hj : j < input.length) (hij : i ≤ j)
    (heq : vertexKeyMatch (input.getD i default) (input.getD j default) = true) :
    (dedupVertices input).2.getD i 0 = (dedupVertices input).2.getD j 0 := by
  rcases Nat.eq_or_lt_of_le hij with rfl | hlt
  · rfl
  obtain ⟨hij', hnanJ⟩ := vertexKeyMatch_iff.mp heq
  have hnanI : vertexHasNan (input.getD i default) = false := by rw [hij']; exact hnanJ
  obtain ⟨hplt, hpe, _⟩ := dedup_entry input i hi
  have hpe := hpe hnanI
  obtain ⟨hpJ, hgJ⟩ := dedup_entry_persist input (show i + 1 ≤ j from hlt) hplt
  have hentry : vertexKeyMatch
      ((dedupVertices (input.take j)).1.getD ((dedupVertices input).2.getD i 0) default)
      (input.getD j default) = true := by
    rw [hgJ]
    exact vertexKeyMatch_trans hpe heq
  have hfind : findKeyIdx (dedupVertices (input.take j)).1 (input.getD j default) =
      some ((dedupVertices input).2.getD i 0) :=
    findKeyIdx_of_getD (dedup_uniques_pairwise _) hpJ hentry
  rw [dedup_idx_char input j hj, hfind]

theorem dedup_idx_ne_of_ne_lt {input : List Vertex} {i j : Nat}
    (hi : i < input.length) (hj : j < input.length) (hlt : i < j)
    (hne : vertexKeyMatch (input.getD i default) (input.getD j default) = false) :
    (dedupVertices input).2.getD i 0 ≠ (dedupVertices input).2.getD j 0 := by
  intro hcontra
  obtain ⟨hpltI, hpeI, hnanI⟩ := dedup_entry input i hi
  obtain ⟨hpltJ, hpeJ, hnanJ⟩ := dedup_entry input j hj
  cases hnJ : vertexHasNan (input.getD j default) with
  | true =>
    obtain ⟨hjEq, _, _⟩ := hnanJ hnJ
    have hmono : (dedupVertices (input.take (i + 1))).1.length ≤
        (dedupVertices (input.take j)).1.length :=
      dedup_uniques_mono_len input (by omega)
    omega
  | false =>
    have hpeJ := hpeJ hnJ
    obtain ⟨hp1, hg1⟩ := dedup_entry_persist input (show i + 1 ≤ j + 1 by omega) hpltI
    rw [← hcontra] at hpeJ
    rw [hg1] at hpeJ
    cases hnI : vertexHasNan (input.getD i default) with
    | false =>
      have hpeI := hpeI hnI
      have h1 : vertexKeyMatch (input.getD i default)
          ((dedupVertices (input.take (i + 1))).1.getD ((dedupVertices input).2.getD i 0)
            default) = true := by
        rw [vertexKeyMatch_symm]
        exact hpeI
      have h2 : vertexKeyMatch (input.getD i default) (input.getD j default) = true :=
        vertexKeyMatch_trans h1 hpeJ
      rw [hne] at h2
      cases h2
    | true =>
      obtain ⟨_, hiEntry, _⟩ := hnanI hnI
      rw [hiEntry] at hpeJ
      rw [hne] at hpeJ
      cases hpeJ

theorem dedup_idx_fresh {input : List Vertex} {i : Nat} (hi : i < input.length)
    (hfirst : ∀ k, k < i → vertexKeyMatch (input.getD k default) (input.getD i default) = false) :
    (dedupVertices input).2.getD i 0 = (dedupVertices (input.take i)).1.length := by
  rw [dedup_idx_char input i hi]
  cases hf : findKeyIdx (dedupVertices (input.take i)).1 (input.getD i default) with
  | none => rfl
  | some k =>
    obtain ⟨hk, hke⟩ := findKeyIdx_some hf
    have hmem : (dedupVertices (input.take i)).1.getD k default ∈
        (dedupVertices (input.take i)).1 := vertex_getD_mem hk
    rcases dedupAux_mem hmem with hnil | htake
    · cases hnil
    · obtain ⟨m, hm, hgm⟩ := List.getElem_of_mem htake
      have hmlen : m < i := by
        have hx := hm
        rw [List.length_take] at hx
        omega
      have hmi : m < input.length := by omega
      have e1 : (input.take i).getD m default = (dedupVertices (input.take i)).1.getD k default := by
        rw [List.getD_eq_getElem _ default hm]
        exact hgm
      have e2 : (input.take i).getD m default = input.getD m default := by
        rw [List.getD_eq_getElem _ default hm, List.getD_eq_getElem input default hmi]
        exact List.getElem_take ..
      have hcontr := hfirst m hmlen
      rw [← e2, e1] at hcontr
      rw [hcontr] at hke
      cases hke

/-- C5 (amended): the deduplication of `Mesh::from_filepath` keys on the
`HashMap` pair — `Hash` over the `to_bits` bit patterns of all components and
`Vertex::eq` over `f32 ==` — so a probe hits a stored vertex exactly when the
two are bit-identical and NaN-free. Hence the index stream has one index per
input occurrence; two bit-identical NaN-free occurrences receive the same
index; two occurrences that are structurally distinct — any component changed
by one unit in the last place, and also a `+0.0`/`-0.0` pair, which is
`f32 ==`-equal but hash-distinct — receive distinct indices; an occurrence
containing NaN never shares an index with any other occurrence; and an
occurrence with no earlier key-matching occurrence is assigned the next dense
ascending index, the number of distinct vertices stored before it. -/
theorem mesh_vertex_dedup_spec (input : List Vertex) (i j : Nat)
    (hi : i < input.length) (hj : j < input.length) :
    (dedupVertices input).2.length = input.length ∧
    (input.getD i default = input.getD j default →
      vertexHasNan (input.getD i default) = false →
      (dedupVertices input).2.getD i 0 = (dedupVertices input).2.getD j 0) ∧
    (i ≠ j → input.getD i default ≠ input.getD j default →
      (dedupVertices input).2.getD i 0 ≠ (dedupVertices input).2.getD j 0) ∧
    (i ≠ j → vertexHasNan (input.getD i default) = true →
      (dedupVertices input).2.getD i 0 ≠ (dedupVertices input).2.getD j 0) ∧
    ((∀ k, k < i → vertexKeyMatch (input.getD k default) (input.getD i default) = false) →
      (dedupVertices input).2.getD i 0 = (dedupVertices (input.take i)).1.length) := by
  have hnecase : ∀ {a b : Nat}, a < b → b < input.length →
      vertexKeyMatch (input.getD a default) (input.getD b default) = false →
      (dedupVertices input).2.getD a 0 ≠ (dedupVertices input).2.getD b 0 := by
    intro a b hab hb hkm
    exact dedup_idx_ne_of_ne_lt (by omega) hb hab hkm
  refine ⟨dedupAux_idx_length [] input, fun hident hnn => ?_, fun hne hneq => ?_,
    fun hne hnan => ?_, fun hf => dedup_idx_fresh hi hf⟩
  · have hkm : vertexKeyMatch (input.getD i default) (input.getD j default) = true := by
      refine vertexKeyMatch_iff.mpr ⟨hident, ?_⟩
      rw [← hident]
      exact hnn
    rcases Nat.le_total i j with hle | hle
    · exact dedup_idx_eq_of_eq_le hi hj hle hkm
    · have hkm' : vertexKeyMatch (input.getD j default) (input.getD i default) = true := by
        rw [vertexKeyMatch_symm]; exact hkm
      exact (dedup_idx_eq_of_eq_le hj hi hle hkm').symm
  · rcases Nat.lt_or_ge i j with hlt | hge
    · exact hnecase hlt hj (vertexKeyMatch_ne hneq)
    · have hlt : j < i := by omega
      exact fun h => hnecase hlt hi (vertexKeyMatch_ne (Ne.symm hneq)) h.symm
  · rcases Nat.lt_or_ge i j with hlt | hge
    · have hkm : vertexKeyMatch (input.getD i default) (input.getD j default) = false := by
        by_cases hsame : input.getD i default = input.getD j default
        · refine vertexKeyMatch_nan ?_ _
          rw [← hsame]
          exact hnan
        · exact vertexKeyMatch_ne hsame
      exact hnecase hlt hj hkm
    · have hlt : j < i := by omega
      exact fun h => hnecase hlt hi (vertexKeyMatch_nan hnan _) h.symm

theorem mesh_vertex_dedup_spec_witness :
    (dedupVertices [vertexA, vertexB, vertexA]).2.getD 0 0 =
      (dedupVertices [vertexA, vertexB, vertexA]).2.getD 2 0 ∧
    (dedupVertices [vertexA, vertexB, vertexA]).2.getD 0 0 ≠
      (dedupVertices [vertexA, vertexB, vertexA]).2.getD 1 0 ∧
    (dedupVertices [vertexA, vertexC]).2.getD 0 0 ≠
      (dedupVertices [vertexA, vertexC]).2.getD 1 0 ∧
    (dedupVertices [nanVertex, nanVertex]).2.getD 0 0 ≠
      (dedupVertices [nanVertex, nanVertex]).2.getD 1 0 ∧
    (dedupVertices [vertexA, vertexB, vertexA]).2.getD 1 0 =
      (dedupVertices ([vertexA, vertexB, vertexA].take 1)).1.length :=
  ⟨(mesh_vertex_dedup_spec [vertexA, vertexB, vertexA] 0 2 (by decide) (by decide)).2.1
      (by decide) (by decide),
    (mesh_vertex_dedup_spec [vertexA, vertexB, vertexA] 0 1 (by decide) (by decide)).2.2.1
      (by decide) (by decide),
    (mesh_vertex_dedup_spec [vertexA, vertexC] 0 1 (by decide) (by decide)).2.2.1
      (by decide) (by decide),
    (mesh_vertex_dedup_spec [nanVertex, nanVertex] 0 1 (by decide) (by decide)).2.2.2.1
      (by decide) (by decide),
    (mesh_vertex_dedup_spec [vertexA, vertexB, vertexA] 1 2 (by decide) (by decide)).2.2.2.2
      (by decide)⟩

/-- C5 counterexample: two bit-identical vertices whose x-position is the NaN
bit pattern `0x7FC00000` do not map to the same index. The two occurrences
hash identically (`Hash` is over the `to_bits` patterns) for every hash seed,
so the lookup deterministically reaches the stored key, but `Vertex::eq` uses
`f32 ==`, under which a NaN equals nothing — itself included — so the probe is
reported absent and every NaN occurrence is inserted fresh: the index stream
produced for `[nanVertex, nanVertex]` is `[0, 1]`, refuting the claim that
equal vertices are always assigned one shared index. -/
theorem mesh_vertex_dedup_nan_counterexample :
    (dedupVertices [nanVertex, nanVertex]).2 = [0, 1] ∧ (0 : Nat) ≠ 1 :=
  ⟨rfl, by decide⟩

theorem fence_getD_set_self {l : List Fence} {i : Nat} (h : i < l.length) (x : Fence) :
    (l.set i x).getD i Fence.null = x := by
  rw [List.getD_eq_getElem?_getD, List.getElem?_set_self', List.getElem?_eq_getElem h]
  rfl

theorem fence_getD_set_ne {l : List Fence} {i j : Nat} (h : j ≠ i) (x : Fence) :
    (l.set j x).getD i Fence.null = l.getD i Fence.null := by
  rw [List.getD_eq_getElem?_getD, List.getElem?_set_ne h, ← List.getD_eq_getElem?_getD]

theorem active_length_le {L : List (Nat × Nat)} (h1 : ∀ p ∈ L, p.1 < MAX_FRAMES_IN_FLIGHT)
    (h2 : L.Pairwise (fun p q => p.1 ≠ q.1)) : L.length ≤ MAX_FRAMES_IN_FLIGHT := by
  have hnd : (L.map Prod.fst).Nodup := List.pairwise_map.mpr h2
  have hsub : (L.map Prod.fst).toFinset ⊆ Finset.range MAX_FRAMES_IN_FLIGHT := by
    intro x hx
    rw [List.mem_toFinset] at hx
    obtain ⟨p, hp, rfl⟩ := List.mem_map.mp hx
    exact Finset.mem_range.mpr (h1 p hp)
  have hcard := Finset.card_le_card hsub
  rw [Finset.card_range, List.toFinset_card_of_nodup hnd, List.length_map] at hcard
  exact hcard

theorem syncInv_init (m : Nat) : SyncInv (initSyncState m) := by
  refine ⟨?_, ?_, List.Pairwise.nil, List.Pairwise.nil, ?_, ?_, ?_⟩
  · show 0 < MAX_FRAMES_IN_FLIGHT
    decide
  · intro p hp; cases hp
  · intro p hp; cases hp
  · intro p hp; cases hp
  · intro g _; rfl

theorem syncInv_step {s t : SyncState} (hinv : SyncInv s) (hst : SyncStep s t) : SyncInv t := by
  obtain ⟨hframe, hfence_lt, hpwf, hpwi, hunsig, hentry, hunused⟩ := hinv
  cases hst with
  | complete f img hmem =>
    have hsub := List.erase_sublist (l := s.active) (a := (f, img))
    have hmem' : ∀ p ∈ s.active.erase (f, img), p ∈ s.active :=
      fun p hp => List.mem_of_mem_erase hp
    have hnd : s.active.Nodup := by
      refine hpwf.imp ?_
      intro a b hab h
      exact hab (by rw [h])
    refine ⟨hframe, fun p hp => hfence_lt p (hmem' p hp), hpwf.sublist hsub,
      hpwi.sublist hsub, ?_, fun p hp => hentry p (hmem' p hp), ?_⟩
    · intro p hp
      have hpa := hmem' p hp
      have hne : p ≠ (f, img) := ((List.Nodup.mem_erase_iff hnd).mp hp).1
      have hsym : Symmetric (fun p q : Nat × Nat => p.1 ≠ q.1) :=
        fun a b hab h => hab h.symm
      have hfne : p.1 ≠ f :=
        List.Pairwise.forall hsym hpwf hpa hmem hne
      show (if p.1 = f then true else s.fenceSignaled p.1) = false
      rw [if_neg hfne]
      exact hunsig p hpa
    · intro g hg
      show (if g = f then true else s.fenceSignaled g) = true
      split
      · rfl
      · exact hunused g hg
  | render img himg hwaitFrame hwaitImage =>
    have himg_free : ∀ q ∈ s.active, q.2 ≠ img := by
      intro q hq hqimg
      obtain ⟨hqlt, hqentry⟩ := hentry q hq
      rw [hqimg] at hqentry
      have h := hwaitImage q.1 hqentry
      rw [hunsig q hq] at h
      cases h
    have hfence_free : ∀ q ∈ s.active, q.1 ≠ s.frame := by
      intro q hq hqf
      have h := hunsig q hq
      rw [hqf, hwaitFrame] at h
      cases h
    refine ⟨?_, ?_, ?_, ?_, ?_, ?_, ?_⟩
    · exact Nat.mod_lt _ (by decide)
    · intro p hp
      rcases List.mem_cons.mp hp with rfl | hp'
      · exact hframe
      · exact hfence_lt p hp'
    · refine List.pairwise_cons.mpr ⟨?_, hpwf⟩
      intro q hq
      exact fun h => hfence_free q hq h.symm
    · refine List.pairwise_cons.mpr ⟨?_, hpwi⟩
      intro q hq
      exact fun h => himg_free q hq h.symm
    · intro p hp
      show (if p.1 = s.frame then false else s.fenceSignaled p.1) = false
      rcases List.mem_cons.mp hp with rfl | hp'
      · rw [if_pos rfl]
      · split
        · rfl
        · exact hunsig p hp'
    · intro p hp
      rcases List.mem_cons.mp hp with rfl | hp'
      · refine ⟨?_, ?_⟩
        · show img < (s.imagesInFlight.set img (Fence.handle s.frame)).length
          rw [List.length_set]
          exact himg
        · exact fence_getD_set_self himg _
      · obtain ⟨hqlt, hqentry⟩ := hentry p hp'
        refine ⟨?_, ?_⟩
        · show p.2 < (s.imagesInFlight.set img (Fence.handle s.frame)).length
          rw [List.length_set]
          exact hqlt
        · show (s.imagesInFlight.set img (Fence.handle s.frame)).getD p.2 Fence.null =
            Fence.handle p.1
          rw [fence_getD_set_ne (fun h => himg_free p hp' h.symm)]
          exact hqentry
    · intro g hg
      show (if g = s.frame then false else s.fenceSignaled g) = true
      rw [if_neg ?_]
      · exact hunused g hg
      · intro h
        rw [h] at hg
        omega
  | recreate newCount hidle =>
    refine ⟨hframe, ?_, ?_, ?_, ?_, ?_, hunused⟩
    · intro p hp
      rw [show ({ s with imagesInFlight := vecResizeNull s.imagesInFlight newCount } :
        SyncState).active = s.active from rfl, hidle] at hp
      cases hp
    · show s.active.Pairwise _
      rw [hidle]
      exact List.Pairwise.nil
    · show s.active.Pairwise _
      rw [hidle]
      exact List.Pairwise.nil
    · intro p hp
      rw [show ({ s with imagesInFlight := vecResizeNull s.imagesInFlight newCount } :
        SyncState).active = s.active from rfl, hidle] at hp
      cases hp
    · intro p hp
      rw [show ({ s with imagesInFlight := vecResizeNull s.imagesInFlight newCount } :
        SyncState).active = s.active from rfl, hidle] at hp
      cases hp

theorem syncInv_reachable {s : SyncState} (h : SyncReachable s) : SyncInv s := by
  induction h with
  | init m => exact syncInv_init m
  | step h hst ih => exact syncInv_step ih hst

/-- C1: in every reachable state of the steady-state render loop, only the
`MAX_FRAMES_IN_FLIGHT` = 2 frame-slot fences can be unsignaled (so at most 2
fences are pending at any instant) and at most 2 GPU submissions are
outstanding; no two outstanding submissions target the same swapchain image —
a swapchain image is never written by two overlapping submissions; and a
render pass that submits against an image whose `ImagesInFlight` entry holds a
non-null fence can fire only once that fence is signaled, i.e. the wait at
src/main.rs:169-175 has completed before `queue_submit`. -/
theorem render_loop_sync_spec (s : SyncState) (hreach : SyncReachable s) :
    (∀ g, s.fenceSignaled g = false → g < MAX_FRAMES_IN_FLIGHT) ∧
    s.active.length ≤ MAX_FRAMES_IN_FLIGHT ∧
    s.active.Pairwise (fun p q => p.2 ≠ q.2) ∧
    (∀ t, SyncStep s t → ∀ f img, (f, img) ∈ t.active → (f, img) ∉ s.active →
      ∀ g, s.imagesInFlight.getD img Fence.null = Fence.handle g →
        s.fenceSignaled g = true) := by
  obtain ⟨hframe, hfence_lt, hpwf, hpwi, hunsig, hentry, hunused⟩ := syncInv_reachable hreach
  refine ⟨?_, active_length_le hfence_lt hpwf, hpwi, ?_⟩
  · intro g hg
    by_contra hge
    rw [hunused g (by omega)] at hg
    cases hg
  · intro t hst f img hmem hnotmem g hentryg
    cases hst with
    | complete f' img' hmem' =>
      exact absurd (List.mem_of_mem_erase hmem) hnotmem
    | render img' himg' hwaitFrame hwaitImage =>
      rcases List.mem_cons.mp hmem with heq | hmem''
      · have himgeq : img = img' := congrArg Prod.snd heq
        rw [himgeq] at hentryg
        exact hwaitImage g hentryg
      · exact absurd hmem'' hnotmem
    | recreate newCount hidle =>
      exact absurd hmem hnotmem

theorem render_loop_sync_spec_witness :
    (∀ g, (initSyncState 3).fenceSignaled g = false → g < MAX_FRAMES_IN_FLIGHT) ∧
    (initSyncState 3).active.length ≤ MAX_FRAMES_IN_FLIGHT ∧
    (initSyncState 3).active.Pairwise (fun p q => p.2 ≠ q.2) ∧
    (∀ t, SyncStep (initSyncState 3) t → ∀ f img, (f, img) ∈ t.active →
      (f, img) ∉ (initSyncState 3).active →
      ∀ g, (initSyncState 3).imagesInFlight.getD img Fence.null = Fence.handle g →
        (initSyncState 3).fenceSignaled g = true) :=
  render_loop_sync_spec (initSyncState 3) (SyncReachable.init 3)
